import Mathlib

/-!
Verification development for the Restricted-saver bot (src/bot.py).

The Python source is shallowly embedded: strings become lists of
characters, Python's `str.split`, `str.index`, `int(...)` and the `in`
substring test become the executable Lean functions below, and the
stateful conversation handlers become an explicit step function on an
`AuthState` record driven by events that carry the remote platform's
outcome (the outcome of `send_code`, `sign_in`, `check_password`, of the
log-channel send, and so on).
-/

namespace Restricted

/-! ### Python string primitives -/

/-- Accumulator-style decimal evaluation of a digit list
(`10*acc + digit` per character, as Python's `int` does). -/
def digitsGo : Nat → List Char → Nat
  | acc, [] => acc
  | acc, c :: t => digitsGo (10 * acc + (c.toNat - 48)) t

/-- Value of a decimal digit string. -/
def digitsVal (l : List Char) : Nat := digitsGo 0 l

/-- All characters are decimal digits. -/
def allDigits (l : List Char) : Bool := l.all Char.isDigit

/-- Characters CPython's `int(str)` strips from both ends: the C-level
whitespace (tab, LF, VT, FF, CR, space) plus the non-ASCII characters
its decimal transform maps to a space (NEL, NBSP and the Unicode space
separators). Enumerated from CPython 3.11 (`int(chr(c) + "5")`). -/
def pySpaceCodes : List Nat :=
  [0x9, 0xa, 0xb, 0xc, 0xd, 0x20, 0x85, 0xa0, 0x1680,
   0x2000, 0x2001, 0x2002, 0x2003, 0x2004, 0x2005, 0x2006, 0x2007,
   0x2008, 0x2009, 0x200a, 0x2028, 0x2029, 0x202f, 0x205f, 0x3000]

def isPySpace (c : Char) : Bool := pySpaceCodes.contains c.toNat

/-- Start (zero digit) of every run of Unicode decimal digits accepted
by CPython's `int(str)`; each run is exactly the ten code points
`z .. z+9` with values `0 .. 9`. Enumerated from CPython 3.11
(Unicode 14) by evaluating `int(chr(c))` over all code points. -/
def ndZeros : List Nat :=
  [48, 1632, 1776, 1984, 2406, 2534, 2662, 2790, 2918, 3046, 3174,
   3302, 3430, 3558, 3664, 3792, 3872, 4160, 4240, 6112, 6160, 6470,
   6608, 6784, 6800, 6992, 7088, 7232, 7248, 42528, 43216, 43264,
   43472, 43504, 43600, 44016, 65296, 66720, 68912, 69734, 69872,
   69942, 70096, 70384, 70736, 70864, 71248, 71360, 71472, 71904,
   72016, 72784, 73040, 73120, 92768, 92864, 93008, 120782, 120792,
   120802, 120812, 120822, 123200, 123632, 125264, 130032]

/-- Decimal value of a character under CPython's `int(str)`, when it
is one of the accepted decimal digits. -/
def decDigitVal? (c : Char) : Option Nat :=
  ndZeros.findSome? fun z =>
    if z ≤ c.toNat && c.toNat < z + 10 then some (c.toNat - z) else none

/-- Strip the `int()`-strippable whitespace from both ends. -/
def stripPySpace (l : List Char) : List Char :=
  ((l.dropWhile isPySpace).reverse.dropWhile isPySpace).reverse

/-- Digit/underscore body of an integer literal after the first digit:
per PEP 515 an underscore must sit between two digits (none leading,
trailing or doubled). -/
def pyBodyGo : Nat → List Char → Option Nat
  | acc, [] => some acc
  | acc, c :: rest =>
    if c = '_' then
      match rest with
      | [] => none
      | d :: rest2 =>
        match decDigitVal? d with
        | some dv => pyBodyGo (10 * acc + dv) rest2
        | none => none
    else
      match decDigitVal? c with
      | some dv => pyBodyGo (10 * acc + dv) rest
      | none => none

/-- Unsigned integer-literal body: nonempty, starting with a digit. -/
def pyBody (l : List Char) : Option Nat :=
  match l with
  | [] => none
  | c :: rest =>
    match decDigitVal? c with
    | some dv => pyBodyGo dv rest
    | none => none

/-- Python `int(s)` in base 10: strip whitespace from both ends, then
an optional single ASCII sign, then a digit body with PEP 515
underscores; digits may be any Unicode decimal digit. Checked against
CPython 3.11 on the edge cases (underscore placement, padding, signed
and Unicode forms) and on a 400-string random corpus. -/
def pyInt (l : List Char) : Option Int :=
  match stripPySpace l with
  | [] => none
  | c :: rest =>
    if c = '+' then (pyBody rest).map Int.ofNat
    else if c = '-' then (pyBody rest).map (fun n => -(n : Int))
    else (pyBody (c :: rest)).map Int.ofNat

/-- Python `s.split(sep)` for a one-character separator: keeps empty
pieces, yields one piece more than the number of separators. -/
def pySplit (sep : Char) : List Char → List (List Char)
  | [] => [[]]
  | c :: rest =>
    if c = sep then [] :: pySplit sep rest
    else
      match pySplit sep rest with
      | [] => [[c]]
      | t :: ts => (c :: t) :: ts

/-- Python `pat in s` substring test. -/
def containsSub (pat : List Char) : List Char → Bool
  | [] => pat.isEmpty
  | c :: rest => pat.isPrefixOf (c :: rest) || containsSub pat rest

/-- Python `l.index(a)`: index of the first occurrence, `none` when the
element is absent (where CPython raises `ValueError`). -/
def pyIndex {α : Type} [DecidableEq α] (a : α) : List α → Option Nat
  | [] => none
  | x :: rest => if x = a then some 0 else (pyIndex a rest).map (· + 1)

/-! ### LinkParser (bot.py, handle_message_with_link lines 628-703) -/

/-- `chat_id` as assigned by the handler: either a numeric internal id
(`int("-100" + channel_id)`) or a string handle (`"@" + username`). -/
inductive ChatRef : Type
  | cid (i : Int)
  | handle (s : List Char)
deriving DecidableEq

/-- Python truthiness of the `chat_id` value (`if not chat_id`):
a numeric id is falsy exactly at 0, a string exactly when empty. -/
def chatTruthy : ChatRef → Bool
  | .cid i => decide (i ≠ 0)
  | .handle s => !s.isEmpty

/-- The `(chat_id, msg_id)` pair the handler extracts from a link. -/
structure ContentReference : Type where
  chat : ChatRef
  msgId : Int
deriving DecidableEq

/-- The distinct user-visible parse failures of the handler. -/
inductive ParseError : Type
  | notTelegramLink
  | invalidPrivateFormat
  | invalidStoryFormat
  | invalidPublicFormat
  | unparseable
deriving DecidableEq

def tMeChars : List Char := ['t', '.', 'm', 'e']
def privMark : List Char := ['/', 'c', '/']
def storyMark : List Char := ['/', 's', '/']
def httpsTok : List Char := ['h', 't', 't', 'p', 's', ':']
def minus100 : List Char := ['-', '1', '0', '0']

/-- The final `if not chat_id or not msg_id` guard shared by all three
branches, then the successful pair. -/
def finishParse (chat : ChatRef) (m : Int) : Except ParseError ContentReference :=
  if !chatTruthy chat || m = 0 then .error .unparseable
  else .ok ⟨chat, m⟩

/-- Private branch (`'/c/' in clean_url`): `c_index = parts.index('c')`,
`channel_id = parts[c_index+1]`, `msg_id = int(parts[c_index+2])`,
`chat_id = int("-100" + channel_id)`; `ValueError/IndexError` is caught
and reported. -/
def parsePriv (parts : List (List Char)) : Except ParseError ContentReference :=
  match pyIndex ['c'] parts with
  | none => .error .invalidPrivateFormat
  | some ci =>
    match parts[ci + 1]?, parts[ci + 2]? with
    | some chSeg, some msgSeg =>
      match pyInt msgSeg, pyInt (minus100 ++ chSeg) with
      | some m, some v => finishParse (.cid v) m
      | _, _ => .error .invalidPrivateFormat
    | _, _ => .error .invalidPrivateFormat

/-- Story branch (`'/s/' in clean_url`): `s_index = parts.index('s')`,
`channel_username = parts[s_index+1]`, `msg_id = int(parts[s_index+2])`,
`chat_id = "@" + channel_username`. -/
def parseStory (parts : List (List Char)) : Except ParseError ContentReference :=
  match pyIndex ['s'] parts with
  | none => .error .invalidStoryFormat
  | some si =>
    match parts[si + 1]?, parts[si + 2]? with
    | some uSeg, some msgSeg =>
      match pyInt msgSeg with
      | some m => finishParse (.handle ('@' :: uSeg)) m
      | none => .error .invalidStoryFormat
    | _, _ => .error .invalidStoryFormat

/-- Public branch: keep the parts that are nonempty and differ from
`'https:'` and `'t.me'`; need at least two, the first is the username,
the second must parse as an integer. -/
def parsePublic (parts : List (List Char)) : Except ParseError ContentReference :=
  let relevant := parts.filter
    (fun p => !p.isEmpty && p ≠ httpsTok && p ≠ tMeChars)
  match relevant[0]?, relevant[1]? with
  | some uSeg, some msgSeg =>
    match pyInt msgSeg with
    | some m => finishParse (.handle ('@' :: uSeg)) m
    | none => .error .invalidPublicFormat
  | _, _ => .error .invalidPublicFormat

/-- The link parser of `handle_message_with_link` (bot.py lines 633-703):
require the `'t.me'` marker, strip query parameters
(`message_text.split('?')[0]`), split the remainder on `'/'`, and
dispatch on the `'/c/'` and `'/s/'` markers. -/
def linkParse (text : List Char) : Except ParseError ContentReference :=
  if !containsSub tMeChars text then .error .notTelegramLink
  else
    let clean := (pySplit '?' text).headD []
    let parts := pySplit '/' clean
    if containsSub privMark clean then parsePriv parts
    else if containsSub storyMark clean then parseStory parts
    else parsePublic parts

/-- Whether the parser failed. -/
def isErrB {ε α : Type} : Except ε α → Bool
  | .error _ => true
  | .ok _ => false

instance {ε α : Type} [DecidableEq ε] [DecidableEq α] : DecidableEq (Except ε α) :=
  fun x y =>
    match x, y with
    | .error a, .error b =>
      if h : a = b then .isTrue (by rw [h]) else .isFalse (by simp [h])
    | .error _, .ok _ => .isFalse (by simp)
    | .ok _, .error _ => .isFalse (by simp)
    | .ok a, .ok b =>
      if h : a = b then .isTrue (by rw [h]) else .isFalse (by simp [h])

/-! ### Characterization of the parser's failure set
The flat conditions below restate, in the spec's vocabulary (missing
domain marker, too few path segments, message-id segment not an
integer / zero), when each branch of the parser fails; the theorem
`link_parse_error_characterization` proves them equivalent to the
control flow of `linkParse`. -/

/-- The path segment at an index, defaulting to the empty segment. -/
def segAt (parts : List (List Char)) (i : Nat) : List Char :=
  parts[i]?.getD []

/-- Failure condition of the private branch: no `'c'` segment at all,
fewer than two segments after the first `'c'` segment, a channel-id
segment that does not form an integer once prefixed with `-100`, or a
message-id segment that is not an integer or is zero. -/
def privFailCond (parts : List (List Char)) : Bool :=
  match pyIndex ['c'] parts with
  | none => true
  | some ci =>
    decide (parts.length ≤ ci + 2)
    || (pyInt (segAt parts (ci + 2))).isNone
    || decide (pyInt (segAt parts (ci + 2)) = some 0)
    || (pyInt (minus100 ++ segAt parts (ci + 1))).isNone

/-- Failure condition of the story branch: no `'s'` segment, fewer than
two segments after it, or a message-id segment that is not an integer
or is zero. -/
def storyFailCond (parts : List (List Char)) : Bool :=
  match pyIndex ['s'] parts with
  | none => true
  | some si =>
    decide (parts.length ≤ si + 2)
    || (pyInt (segAt parts (si + 2))).isNone
    || decide (pyInt (segAt parts (si + 2)) = some 0)

/-- Failure condition of the public branch: fewer than two relevant
segments, or a message-id segment that is not an integer or is zero. -/
def publicFailCond (parts : List (List Char)) : Bool :=
  let relevant := parts.filter
    (fun p => !p.isEmpty && p ≠ httpsTok && p ≠ tMeChars)
  decide (relevant.length ≤ 1)
  || (pyInt (segAt relevant 1)).isNone
  || decide (pyInt (segAt relevant 1) = some 0)

/-- When the parser fails, stated as a flat disjunction of the spec's
conditions: the `'t.me'` marker is missing, or the branch selected by
the `'/c/'` / `'/s/'` markers fails as above. -/
def failCond (text : List Char) : Bool :=
  !containsSub tMeChars text
  || (let clean := (pySplit '?' text).headD []
      let parts := pySplit '/' clean
      if containsSub privMark clean then privFailCond parts
      else if containsSub storyMark clean then storyFailCond parts
      else publicFailCond parts)

/-! ### Authentication state machine
(bot.py: get_phone_number, get_otp, get_2fa_password, cleanup_client,
cancel_command; sessions: user_sessions / save_session) -/

/-- Terminal result of a login conversation. -/
inductive Outcome : Type
  | success
  | failed
  | cancelled
deriving DecidableEq

/-- The ConversationHandler state (GET_PHONE / GET_OTP / GET_2FA) or the
terminal `ConversationHandler.END` with its result. -/
inductive Stage : Type
  | getPhone
  | getOtp
  | get2fa
  | ended (o : Outcome)
deriving DecidableEq

/-- Ledger entry for one pyrogram `Client` created by the flow:
whether it currently holds a live connection, and how many
`disconnect()` calls have been issued on it. -/
structure Conn : Type where
  connected : Bool
  disconnects : Nat
deriving DecidableEq

/-- Full per-conversation state: the conversation stage, the
`context.user_data` keys (`client`, `phone_number`, `phone_code_hash`),
the ledger of every client created, the in-memory `user_sessions`
entries for this user, the durable `save_session` writes, and the
messages sent to the log channel (session string, phone number). -/
structure AuthState : Type where
  stage : Stage
  clientIdx : Option Nat
  phone : Option (List Char)
  hasHash : Bool
  conns : List Conn
  memSessions : List (List Char)
  dbWrites : List (List Char)
  dbAttempts : List (List Char)
  logged : List (List Char × List Char)
  signedIn : Bool
  phoneSubmitted : Option (List Char)
deriving DecidableEq

def initState : AuthState :=
  ⟨.getPhone, none, none, false, [], [], [], [], [], false, none⟩

/-- Replace the element at an index (other positions unchanged). -/
def modifyAt {α : Type} : List α → Nat → (α → α) → List α
  | [], _, _ => []
  | c :: t, 0, f => f c :: t
  | c :: t, n + 1, f => c :: modifyAt t n f

/-- Effect of one `client.disconnect()` call. -/
def callDisconnect (c : Conn) : Conn := ⟨false, c.disconnects + 1⟩

/-- `cleanup_client` (bot.py lines 384-393): if `'client'` is in
`user_data`, disconnect it when `is_connected`, then
`context.user_data.clear()`; when no client is stored the function does
nothing at all. -/
def cleanupClient (s : AuthState) : AuthState :=
  match s.clientIdx with
  | none => s
  | some i =>
    let conns :=
      if ((s.conns.get? i).map Conn.connected).getD false
      then modifyAt s.conns i callDisconnect
      else s.conns
    { s with clientIdx := none, phone := none, hasHash := false, conns := conns }

/-- Outcome of `get_phone_number`'s remote calls, distinguishing where
in lines 152-209 the exception (if any) is raised. -/
inductive PhoneOutcome : Type
  | ok
  | invalidPhone
  | floodWait (secs : Nat)
  | errConnect
  | errAfterSend
  | errAfterStore
deriving DecidableEq

/-- Outcome of `get_otp`'s remote calls (lines 226-305). On a successful
`sign_in`, `sess` is the exported session string, `dbOk` is whether
`save_session`'s `update_one` succeeds (bot.py lines 79-87: its
exception is caught and only logged), and `logOk` is whether the
subsequent log-channel `send_message` succeeds. -/
inductive OtpOutcome : Type
  | ok (sess : List Char) (dbOk : Bool) (logOk : Bool)
  | needs2fa
  | codeInvalid
  | codeExpired
  | otherErr
deriving DecidableEq

/-- Outcome of `get_2fa_password`'s remote calls (lines 321-382). -/
inductive TfaOutcome : Type
  | ok (sess : List Char) (dbOk : Bool) (logOk : Bool)
  | wrongPassword
  | otherErr
deriving DecidableEq

/-- One user interaction together with the remote platform's response. -/
inductive Event : Type
  | phone (text : List Char) (r : PhoneOutcome)
  | otp (r : OtpOutcome)
  | tfa (r : TfaOutcome)
  | cancel
deriving DecidableEq

/-- Phone format validation (line 142):
`phone_number.startswith('+') and len(phone_number) >= 8`. -/
def phoneFormatOk (t : List Char) : Bool :=
  t.head? = some '+' && decide (8 ≤ t.length)

/-- Record a successful sign-in: `user_sessions[user_id] = s` plus
`save_session`. With a database client present the `update_one` call is
attempted (`dbAttempts`); it yields a durable write (`dbWrites`) only
when the Mongo operation does not raise — a raise is caught inside
`save_session` and merely logged (bot.py lines 79-87), so the caller
continues either way. -/
def recordSave (hasDb : Bool) (sess : List Char) (dbOk : Bool)
    (s : AuthState) : AuthState :=
  { s with
    memSessions := s.memSessions ++ [sess]
    dbAttempts := if hasDb then s.dbAttempts ++ [sess] else s.dbAttempts
    dbWrites := if hasDb && dbOk then s.dbWrites ++ [sess] else s.dbWrites
    signedIn := true }

/-- Shared success/notification tail of `get_otp` and
`get_2fa_password`: save the session (in memory always; durably only
when the swallowed-exception Mongo write succeeds), then send the
log-channel message; if the send succeeds, reply, `client.disconnect()`
(unguarded) and `user_data.clear()` ending in SUCCESS, and if it
raises, the generic handler replies "failed" and runs `cleanup_client`,
ending in FAILED with the save already performed. -/
def signInSuccess (hasDb : Bool) (i : Nat) (sess : List Char)
    (dbOk logOk : Bool) (s : AuthState) : AuthState :=
  let s1 := recordSave hasDb sess dbOk s
  if logOk then
    { s1 with
      logged := s1.logged ++ [(sess, s.phone.getD [])]
      conns := modifyAt s1.conns i callDisconnect
      clientIdx := none, phone := none, hasHash := false
      stage := .ended .success }
  else
    { cleanupClient s1 with stage := .ended .failed }

/-- One ConversationHandler dispatch, faithful to bot.py. Events that
the handler table cannot route in the current stage leave the state
unchanged, and a finished conversation receives no further events. -/
def step (hasDb : Bool) (s : AuthState) (e : Event) : AuthState :=
  match s.stage, e with
  | .ended _, _ => s
  | _, .cancel => { cleanupClient s with stage := .ended .cancelled }
  | .getPhone, .phone t r =>
    if !phoneFormatOk t then s
    else
      match r with
      | .ok =>
        { s with
          stage := .getOtp
          conns := s.conns ++ [⟨true, 0⟩]
          clientIdx := some s.conns.length
          phone := some t, hasHash := true
          phoneSubmitted := some t }
      | .invalidPhone =>
        -- send_code raised PhoneNumberInvalid: re-prompt; the connected
        -- local client is neither stored nor disconnected
        { s with conns := s.conns ++ [⟨true, 0⟩] }
      | .floodWait _ =>
        -- FloodWait: report the wait and END; the connected local client
        -- is neither stored nor disconnected
        { s with stage := .ended .failed, conns := s.conns ++ [⟨true, 0⟩] }
      | .errConnect =>
        -- connect() itself raised: no live connection ever existed
        { s with stage := .ended .failed, conns := s.conns ++ [⟨false, 0⟩] }
      | .errAfterSend =>
        -- a non-special exception before the client was stored: the
        -- except block finds no 'client' key and cleans nothing
        { s with stage := .ended .failed, conns := s.conns ++ [⟨true, 0⟩] }
      | .errAfterStore =>
        -- exception after storing: the except block disconnects the
        -- stored client and deletes only the 'client' key
        { s with
          stage := .ended .failed
          conns := s.conns ++ [⟨false, 1⟩]
          clientIdx := none, phone := some t, hasHash := true
          phoneSubmitted := some t }
  | .getOtp, .otp r =>
    match s.clientIdx with
    | none => { s with stage := .ended .failed }
    | some i =>
      if s.phone = none || !s.hasHash then { s with stage := .ended .failed }
      else
        match r with
        | .ok sess dbOk logOk => signInSuccess hasDb i sess dbOk logOk s
        | .needs2fa => { s with stage := .get2fa }
        | .codeInvalid => s
        | .codeExpired => { cleanupClient s with stage := .ended .failed }
        | .otherErr => { cleanupClient s with stage := .ended .failed }
  | .get2fa, .tfa r =>
    match s.clientIdx with
    | none => { s with stage := .ended .failed }
    | some i =>
      match r with
      | .ok sess dbOk logOk => signInSuccess hasDb i sess dbOk logOk s
      | .wrongPassword => s
      | .otherErr => { cleanupClient s with stage := .ended .failed }
  | _, _ => s

/-- A whole conversation: fold the dispatcher over the event list. -/
def run (hasDb : Bool) (evs : List Event) : AuthState :=
  evs.foldl (step hasDb) initState

/-! ### Idle-login timeout (spec-modelled)
The ConversationHandler wiring that configures the 300-second
conversation timeout lies in the part of bot.py cut off after line 771;
only the handlers themselves are in src. The expiry transition below is
modelled from the spec: a PendingLogin untouched for at least 300
seconds is discarded on the next interaction, its connection released
through the cleanup path, and the arriving stale response is not
processed. -/

/-- Conversation state plus the time of the last interaction. -/
structure TimedState : Type where
  base : AuthState
  lastTouch : Nat
deriving DecidableEq

def timeoutSecs : Nat := 300

/-- Modelled from the spec: one interaction at absolute time `t`.
If the conversation is still open but idle for ≥ 300 s, the pending
login is cancelled via the cleanup path and the stale event discarded;
otherwise the event is dispatched normally. -/
def timedStep (hasDb : Bool) (s : TimedState) (e : Nat × Event) : TimedState :=
  match s.base.stage with
  | .ended _ => ⟨step hasDb s.base e.2, e.1⟩
  | _ =>
    if s.lastTouch + timeoutSecs ≤ e.1 then
      ⟨{ cleanupClient s.base with stage := .ended .cancelled }, e.1⟩
    else
      ⟨step hasDb s.base e.2, e.1⟩

/-- A timed conversation starting at time 0. -/
def runTimed (hasDb : Bool) (evs : List (Nat × Event)) : TimedState :=
  evs.foldl (timedStep hasDb) ⟨initState, 0⟩

/-! ### SessionStore helpers (bot.py lines 65-95) -/

/-- The `user_sessions` collection: one document per user id. -/
def SessionDB : Type := List (Nat × List Char)

/-- `load_sessions`: with no database client it returns `{}`; otherwise
every stored document. -/
def load_sessions (dbPresent : Bool) (db : SessionDB) : SessionDB :=
  if !dbPresent then [] else db

/-- `update_one(..., upsert=True)`: replace the existing document for
the key or append a new one. -/
def upsert (uid : Nat) (sess : List Char) : SessionDB → SessionDB
  | [] => [(uid, sess)]
  | (u, v) :: t => if u = uid then (u, sess) :: t else (u, v) :: upsert uid sess t

/-- `save_session`: with no database client it returns immediately
without any effect. -/
def save_session (dbPresent : Bool) (db : SessionDB) (uid : Nat)
    (sess : List Char) : SessionDB :=
  if !dbPresent then db else upsert uid sess db

/-- `delete_one`. -/
def deleteKey (uid : Nat) : SessionDB → SessionDB
  | [] => []
  | (u, v) :: t => if u = uid then t else (u, v) :: deleteKey uid t

/-- `delete_session`: with no database client it returns immediately
without any effect. -/
def delete_session (dbPresent : Bool) (db : SessionDB) (uid : Nat) : SessionDB :=
  if !dbPresent then db else deleteKey uid db

/-! ### Retrieval pipeline (bot.py lines 718-761)
The fetched message and the outcome of each remote delivery call are
inputs; the embedding records which strategies the code invokes. The
source file is cut off inside Method 3's body, so only the decision
structure up to and including the invocation of the download strategy
(lines 729-761) is modelled, which is all the claims concern. -/

inductive Strategy : Type
  | copy
  | forward
  | download
deriving DecidableEq

/-- The spec's error taxonomy for a failed strategy call. -/
inductive ErrClass : Type
  | accessDenied
  | notFound
  | unsupportedMethod
  | otherErr
deriving DecidableEq

/-- Result of one remote delivery call. -/
inductive StratResult : Type
  | ok
  | err (c : ErrClass)
deriving DecidableEq

def stratOk : StratResult → Bool
  | .ok => true
  | .err _ => false

/-- The fetched message, as far as the strategy chain consults it:
`message.media` truthiness and the declared media size (which the code
never reads — there is no size gate in bot.py). -/
structure FetchedMessage : Type where
  hasMedia : Bool
  mediaSize : Nat
deriving DecidableEq

/-- Outcomes the remote platform would return for each strategy. -/
structure StratEnv : Type where
  copyRes : StratResult
  forwardRes : StratResult
  downloadRes : StratResult
deriving DecidableEq

/-- Which strategies ran, and the final `success` flag. -/
structure PipeRun : Type where
  invoked : List Strategy
  success : Bool
deriving DecidableEq

/-- Methods 1-3 of `handle_message_with_link` (lines 729-761): try
`copy_message`; every exception is caught and logged; if not successful
try `forward_messages`; likewise; if still not successful and the
message has media, run the download path. No error classification and
no size or entitlement check occurs anywhere on this path. -/
def runStrategies (msg : FetchedMessage) (env : StratEnv) : PipeRun :=
  if stratOk env.copyRes then ⟨[.copy], true⟩
  else if stratOk env.forwardRes then ⟨[.copy, .forward], true⟩
  else if msg.hasMedia then
    ⟨[.copy, .forward, .download], stratOk env.downloadRes⟩
  else ⟨[.copy, .forward], false⟩

/-- Modelled from the spec (PolicyGate, section 4.4): allow unless the
size exceeds the free-tier threshold and the user holds no entitlement.
No such gate exists anywhere in src/bot.py; this definition only gives
the claims about it something to be compared against. -/
def specPolicyGate (entitled : Bool) (size threshold : Nat) : Bool :=
  !(decide (threshold < size) && !entitled)

/-- Whether a stage is terminal. -/
def isEnded : Stage → Bool
  | .ended _ => true
  | _ => false

/-- Reachability invariant of the conversation machine. In order:
the stored client is a live, never-disconnected ledger entry; no client
ever receives two disconnect calls; GET_PHONE holds no client; a
finished conversation holds no client; a stored client comes with the
phone number and code hash stored alongside it, the phone being the one
submitted; the in-memory session map is nonempty exactly after a
successful sign-in; with a database the store write has been attempted
exactly when sign-in succeeded; without one no attempt or write occurs; no
durable write exists before a successful sign-in; sign-in success
leaves the conversation at SUCCESS or (failed notification) FAILED;
and on SUCCESS the log channel received the session string held in the
in-memory map and handed to `save_session`, with the submitted phone. -/
def Inv (hasDb : Bool) (s : AuthState) : Prop :=
  (∀ i, s.clientIdx = some i →
    ∃ c, s.conns.get? i = some c ∧ c.connected = true ∧ c.disconnects = 0)
  ∧ (∀ c ∈ s.conns, c.disconnects ≤ 1)
  ∧ (s.stage = .getPhone → s.clientIdx = none)
  ∧ (∀ o, s.stage = .ended o → s.clientIdx = none)
  ∧ (∀ i, s.clientIdx = some i →
      s.phone ≠ none ∧ s.hasHash = true ∧ s.phone = s.phoneSubmitted)
  ∧ (s.memSessions = [] ↔ s.signedIn = false)
  ∧ (hasDb = true → (s.dbAttempts = [] ↔ s.signedIn = false))
  ∧ (hasDb = false → s.dbWrites = [] ∧ s.dbAttempts = [])
  ∧ (s.signedIn = false → s.dbWrites = [])
  ∧ (s.signedIn = true → s.stage = .ended .success ∨ s.stage = .ended .failed)
  ∧ (s.stage = .ended .success →
      ∃ e, e ∈ s.logged ∧ e.1 ∈ s.memSessions
        ∧ (hasDb = true → e.1 ∈ s.dbAttempts)
        ∧ some e.2 = s.phoneSubmitted)

/-! ## Theorems -/

/-! ### Helper lemmas about the primitives -/

theorem modifyAt_get?_self {α : Type} (l : List α) (i : Nat) (f : α → α) :
    (modifyAt l i f).get? i = (l.get? i).map f := by
  induction l generalizing i with
  | nil => simp [modifyAt]
  | cons a t ih =>
    cases i with
    | zero => simp [modifyAt]
    | succ n => simpa [modifyAt] using ih n

theorem modifyAt_get?_ne {α : Type} (l : List α) (i : Nat) (f : α → α)
    (j : Nat) (h : j ≠ i) : (modifyAt l i f).get? j = l.get? j := by
  induction l generalizing i j with
  | nil => simp [modifyAt]
  | cons a t ih =>
    cases i with
    | zero =>
      cases j with
      | zero => exact absurd rfl h
      | succ m => simp [modifyAt]
    | succ n =>
      cases j with
      | zero => simp [modifyAt]
      | succ m => simpa [modifyAt] using ih n m (by omega)

theorem mem_modifyAt {α : Type} {c : α} {l : List α} {i : Nat} {f : α → α}
    (h : c ∈ modifyAt l i f) :
    c ∈ l ∨ ∃ d, l.get? i = some d ∧ c = f d := by
  induction l generalizing i with
  | nil => simp [modifyAt] at h
  | cons a t ih =>
    cases i with
    | zero =>
      simp only [modifyAt] at h
      rcases List.mem_cons.mp h with h | h
      · exact Or.inr ⟨a, by simp, h⟩
      · exact Or.inl (List.mem_cons_of_mem a h)
    | succ n =>
      simp only [modifyAt] at h
      rcases List.mem_cons.mp h with h | h
      · exact Or.inl (h ▸ List.mem_cons_self a t)
      · rcases ih h with h' | ⟨d, hd, hc⟩
        · exact Or.inl (List.mem_cons_of_mem a h')
        · exact Or.inr ⟨d, by simpa using hd, hc⟩

/-! ### Invariant preservation -/

theorem inv_cleanup_ended (hasDb : Bool) (s : AuthState) (o : Outcome)
    (hInv : Inv hasDb s)
    (ho : o = .failed ∨ (o = .cancelled ∧ s.signedIn = false)) :
    Inv hasDb { cleanupClient s with stage := .ended o } := by
  obtain ⟨stg, ci, ph, hh, cns, mem, db, dba, lg, si, ps⟩ := s
  obtain ⟨h1, h2, h3, h4, h5, h6, h7, h8, h9, h10, h11⟩ := hInv
  have honotsucc : o ≠ .success := by
    rcases ho with h | ⟨h, _⟩ <;> simp [h]
  simp only [Inv] at *
  cases ci with
  | none =>
    simp only [cleanupClient]
    refine ⟨?_, h2, ?_, ?_, ?_, h6, h7, h8, h9, ?_, ?_⟩
    · intro i hi; exact Option.noConfusion hi
    · intro h; exact Stage.noConfusion h
    · intro o' _; trivial
    · intro i hi; exact Option.noConfusion hi
    · intro hsi
      rcases ho with h | ⟨h, hsf⟩
      · simp [h]
      · rw [hsf] at hsi; exact Bool.noConfusion hsi
    · intro h
      exact absurd (by injection h) honotsucc
  | some i =>
    obtain ⟨c, hc, hconn, hd0⟩ := h1 i rfl
    have hcond : ((cns.get? i).map Conn.connected).getD false = true := by
      rw [hc]; simpa using hconn
    simp only [cleanupClient, hcond, if_true]
    refine ⟨?_, ?_, ?_, ?_, ?_, h6, h7, h8, h9, ?_, ?_⟩
    · intro j hj; exact Option.noConfusion hj
    · intro c' hc'
      rcases mem_modifyAt hc' with h | ⟨d, hd, hcd⟩
      · exact h2 c' h
      · rw [hc] at hd; injection hd with hd; subst hd
        simp [hcd, callDisconnect, hd0]
    · intro h; exact Stage.noConfusion h
    · intro o' _; trivial
    · intro j hj; exact Option.noConfusion hj
    · intro hsi
      rcases ho with h | ⟨h, hsf⟩
      · simp [h]
      · rw [hsf] at hsi; exact Bool.noConfusion hsi
    · intro h
      exact absurd (by injection h) honotsucc

theorem inv_signInSuccess (hasDb : Bool) (s : AuthState) (i : Nat)
    (sess : List Char) (dbOk logOk : Bool) (hInv : Inv hasDb s)
    (hci : s.clientIdx = some i) :
    Inv hasDb (signInSuccess hasDb i sess dbOk logOk s) := by
  obtain ⟨stg, ci, ph, hh, cns, mem, db, dba, lg, si, ps⟩ := s
  obtain ⟨h1, h2, h3, h4, h5, h6, h7, h8, h9, h10, h11⟩ := hInv
  simp only at hci
  subst hci
  obtain ⟨c, hc, hconn, hd0⟩ := h1 i rfl
  obtain ⟨hph, hhash, hpsub⟩ := h5 i rfl
  obtain ⟨p, hp⟩ := Option.ne_none_iff_exists'.mp hph
  simp only at hc hp ⊢
  subst hp
  have hmm : ∀ c' ∈ modifyAt cns i callDisconnect, c'.disconnects ≤ 1 := by
    intro c' hc'
    rcases mem_modifyAt hc' with h | ⟨d, hd, hcd⟩
    · exact h2 c' h
    · rw [hc] at hd; injection hd with hd; subst hd
      simp [hcd, callDisconnect, hd0]
  cases logOk with
  | true =>
    simp only [signInSuccess, recordSave, if_true]
    refine ⟨?_, hmm, ?_, ?_, ?_, ?_, ?_, ?_, ?_, ?_, ?_⟩
    · intro j hj; exact Option.noConfusion hj
    · intro h; exact Stage.noConfusion h
    · intro o' _; trivial
    · intro j hj; exact Option.noConfusion hj
    · simp
    · intro hdb; simp [hdb]
    · intro hdb; simpa [hdb] using h8 hdb
    · intro h; exact Bool.noConfusion h
    · intro _; exact Or.inl rfl
    · intro _
      refine ⟨(sess, p), by simp, by simp, ?_, by simpa using hpsub⟩
      intro hdb; simp [hdb]
  | false =>
    have hcond :
        ((cns.get? i).map Conn.connected).getD false = true := by
      rw [hc]; simpa using hconn
    simp only [signInSuccess, recordSave, Bool.false_eq_true, if_false,
      cleanupClient, hcond, if_true]
    refine ⟨?_, hmm, ?_, ?_, ?_, ?_, ?_, ?_, ?_, ?_, ?_⟩
    · intro j hj; exact Option.noConfusion hj
    · intro h; exact Stage.noConfusion h
    · intro o' _; trivial
    · intro j hj; exact Option.noConfusion hj
    · simp
    · intro hdb; simp [hdb]
    · intro hdb; simpa [hdb] using h8 hdb
    · intro h; exact Bool.noConfusion h
    · intro _; exact Or.inr rfl
    · intro h; exact absurd (by injection h) (by simp)

theorem step_inv (hasDb : Bool) (s : AuthState) (e : Event)
    (hInv : Inv hasDb s) : Inv hasDb (step hasDb s e) := by
  obtain ⟨stg, ci, ph, hh, cns, mem, db, dba, lg, si, ps⟩ := s
  have hInv' := hInv
  obtain ⟨h1, h2, h3, h4, h5, h6, h7, h8, h9, h10, h11⟩ := hInv'
  cases stg with
  | ended o => cases e <;> exact hInv
  | getPhone =>
    have hci : ci = none := h3 rfl
    subst hci
    have hsi : si = false := by
      cases hsib : si
      · rfl
      · rcases h10 hsib with h | h <;> exact Stage.noConfusion h
    subst hsi
    cases e with
    | cancel => exact inv_cleanup_ended hasDb _ _ hInv (Or.inr ⟨rfl, rfl⟩)
    | otp r => exact hInv
    | tfa r => exact hInv
    | phone t r =>
      cases hfmt : phoneFormatOk t with
      | false => simpa only [step, hfmt] using hInv
      | true =>
        simp only [step, hfmt, Bool.not_true, Bool.false_eq_true, if_false]
        cases r with
        | ok =>
          refine ⟨?_, ?_, ?_, ?_, ?_, h6, h7, h8, h9, ?_, ?_⟩
          · intro j hj
            injection hj with hj
            subst hj
            exact ⟨⟨true, 0⟩, by simp, rfl, rfl⟩
          · intro c hc
            rcases List.mem_append.mp hc with h | h
            · exact h2 c h
            · simp at h; simp [h]
          · intro h; exact Stage.noConfusion h
          · intro o h; exact Stage.noConfusion h
          · intro j _; exact ⟨by simp, rfl, rfl⟩
          · intro h; exact Bool.noConfusion h
          · intro h; exact Stage.noConfusion h
        | invalidPhone =>
          refine ⟨?_, ?_, ?_, ?_, ?_, h6, h7, h8, h9, ?_, ?_⟩
          · intro j hj; exact Option.noConfusion hj
          · intro c hc
            rcases List.mem_append.mp hc with h | h
            · exact h2 c h
            · simp at h; simp [h]
          · intro _; rfl
          · intro o h; exact Stage.noConfusion h
          · intro j hj; exact Option.noConfusion hj
          · intro h; exact Bool.noConfusion h
          · intro h; exact Stage.noConfusion h
        | floodWait n =>
          refine ⟨?_, ?_, ?_, ?_, ?_, h6, h7, h8, h9, ?_, ?_⟩
          · intro j hj; exact Option.noConfusion hj
          · intro c hc
            rcases List.mem_append.mp hc with h | h
            · exact h2 c h
            · simp at h; simp [h]
          · intro h; exact Stage.noConfusion h
          · intro o h; rfl
          · intro j hj; exact Option.noConfusion hj
          · intro h; exact Bool.noConfusion h
          · intro h; exact absurd (by injection h) (by simp)
        | errConnect =>
          refine ⟨?_, ?_, ?_, ?_, ?_, h6, h7, h8, h9, ?_, ?_⟩
          · intro j hj; exact Option.noConfusion hj
          · intro c hc
            rcases List.mem_append.mp hc with h | h
            · exact h2 c h
            · simp at h; simp [h]
          · intro h; exact Stage.noConfusion h
          · intro o h; rfl
          · intro j hj; exact Option.noConfusion hj
          · intro h; exact Bool.noConfusion h
          · intro h; exact absurd (by injection h) (by simp)
        | errAfterSend =>
          refine ⟨?_, ?_, ?_, ?_, ?_, h6, h7, h8, h9, ?_, ?_⟩
          · intro j hj; exact Option.noConfusion hj
          · intro c hc
            rcases List.mem_append.mp hc with h | h
            · exact h2 c h
            · simp at h; simp [h]
          · intro h; exact Stage.noConfusion h
          · intro o h; rfl
          · intro j hj; exact Option.noConfusion hj
          · intro h; exact Bool.noConfusion h
          · intro h; exact absurd (by injection h) (by simp)
        | errAfterStore =>
          refine ⟨?_, ?_, ?_, ?_, ?_, h6, h7, h8, h9, ?_, ?_⟩
          · intro j hj; exact Option.noConfusion hj
          · intro c hc
            rcases List.mem_append.mp hc with h | h
            · exact h2 c h
            · simp at h; simp [h]
          · intro h; exact Stage.noConfusion h
          · intro o h; rfl
          · intro j hj; exact Option.noConfusion hj
          · intro h; exact Bool.noConfusion h
          · intro h; exact absurd (by injection h) (by simp)
  | getOtp =>
    have hsi : si = false := by
      cases hsib : si
      · rfl
      · rcases h10 hsib with h | h <;> exact Stage.noConfusion h
    subst hsi
    cases e with
    | cancel => exact inv_cleanup_ended hasDb _ _ hInv (Or.inr ⟨rfl, rfl⟩)
    | phone t r => exact hInv
    | tfa r => exact hInv
    | otp r =>
      cases hci : ci with
      | none =>
        subst hci
        refine ⟨?_, h2, ?_, ?_, ?_, h6, h7, h8, h9, ?_, ?_⟩
        · intro j hj; exact Option.noConfusion hj
        · intro h; exact Stage.noConfusion h
        · intro o h; rfl
        · intro j hj; exact Option.noConfusion hj
        · intro h; exact Bool.noConfusion h
        · intro h; exact absurd (by injection h) (by simp)
      | some i =>
        subst hci
        obtain ⟨hph, hhash, hpsub⟩ := h5 i rfl
        simp only at hph hhash hpsub
        obtain ⟨p, hp⟩ := Option.ne_none_iff_exists'.mp hph
        subst hp
        subst hhash
        simp only [step, Option.some.injEq, Bool.not_true, Bool.or_self,
          Bool.false_eq_true, if_false, reduceCtorEq]
        cases r with
        | ok sess dbOk logOk =>
          exact inv_signInSuccess hasDb _ i sess dbOk logOk hInv rfl
        | needs2fa =>
          refine ⟨h1, h2, ?_, ?_, h5, h6, h7, h8, h9, ?_, ?_⟩
          · intro h; exact Stage.noConfusion h
          · intro o h; exact Stage.noConfusion h
          · intro h; exact Bool.noConfusion h
          · intro h; exact Stage.noConfusion h
        | codeInvalid => exact hInv
        | codeExpired => exact inv_cleanup_ended hasDb _ _ hInv (Or.inl rfl)
        | otherErr => exact inv_cleanup_ended hasDb _ _ hInv (Or.inl rfl)
  | get2fa =>
    have hsi : si = false := by
      cases hsib : si
      · rfl
      · rcases h10 hsib with h | h <;> exact Stage.noConfusion h
    subst hsi
    cases e with
    | cancel => exact inv_cleanup_ended hasDb _ _ hInv (Or.inr ⟨rfl, rfl⟩)
    | phone t r => exact hInv
    | otp r => exact hInv
    | tfa r =>
      cases hci : ci with
      | none =>
        subst hci
        refine ⟨?_, h2, ?_, ?_, ?_, h6, h7, h8, h9, ?_, ?_⟩
        · intro j hj; exact Option.noConfusion hj
        · intro h; exact Stage.noConfusion h
        · intro o h; rfl
        · intro j hj; exact Option.noConfusion hj
        · intro h; exact Bool.noConfusion h
        · intro h; exact absurd (by injection h) (by simp)
      | some i =>
        subst hci
        cases r with
        | ok sess dbOk logOk =>
          exact inv_signInSuccess hasDb _ i sess dbOk logOk hInv rfl
        | wrongPassword => exact hInv
        | otherErr => exact inv_cleanup_ended hasDb _ _ hInv (Or.inl rfl)

theorem init_inv (hasDb : Bool) : Inv hasDb initState := by
  refine ⟨?_, ?_, ?_, ?_, ?_, ?_, ?_, ?_, ?_, ?_⟩ <;>
    simp [initState, Inv]

theorem foldl_inv (hasDb : Bool) (evs : List Event) :
    ∀ s, Inv hasDb s → Inv hasDb (evs.foldl (step hasDb) s) := by
  induction evs with
  | nil => intro s h; exact h
  | cons e t ih => intro s h; exact ih _ (step_inv hasDb s e h)

theorem run_inv (hasDb : Bool) (evs : List Event) :
    Inv hasDb (run hasDb evs) :=
  foldl_inv hasDb evs initState (init_inv hasDb)

/-- A finished conversation receives no further events: `step` is the
identity on any terminal state. -/
theorem step_ended (hasDb : Bool) (s : AuthState) (e : Event)
    (o : Outcome) (h : s.stage = .ended o) : step hasDb s e = s := by
  obtain ⟨stg, ci, ph, hh, cns, mem, db, lg, si, ps⟩ := s
  simp only at h
  subst h
  cases e <;> rfl

/-- The timed dispatcher acts on the base state either as the event
itself or (on expiry) as the cancel path. -/
theorem timedStep_base (hasDb : Bool) (s : TimedState) (e : Nat × Event) :
    (timedStep hasDb s e).base = step hasDb s.base e.2 ∨
    (timedStep hasDb s e).base = step hasDb s.base .cancel := by
  obtain ⟨⟨stg, ci, ph, hh, cns, mem, db, lg, si, ps⟩, lt⟩ := s
  cases stg with
  | ended o => exact Or.inl rfl
  | getPhone =>
    by_cases h : lt + timeoutSecs ≤ e.1
    · simp only [timedStep, if_pos h]; exact Or.inr rfl
    · simp only [timedStep, if_neg h]; exact Or.inl trivial
  | getOtp =>
    by_cases h : lt + timeoutSecs ≤ e.1
    · simp only [timedStep, if_pos h]; exact Or.inr rfl
    · simp only [timedStep, if_neg h]; exact Or.inl trivial
  | get2fa =>
    by_cases h : lt + timeoutSecs ≤ e.1
    · simp only [timedStep, if_pos h]; exact Or.inr rfl
    · simp only [timedStep, if_neg h]; exact Or.inl trivial

theorem timedFoldl_inv (hasDb : Bool) (evs : List (Nat × Event)) :
    ∀ s : TimedState, Inv hasDb s.base →
      Inv hasDb ((evs.foldl (timedStep hasDb) s).base) := by
  induction evs with
  | nil => intro s h; exact h
  | cons e t ih =>
    intro s h
    refine ih _ ?_
    rcases timedStep_base hasDb s e with hb | hb <;> rw [hb] <;>
      exact step_inv hasDb s.base _ h

theorem runTimed_inv (hasDb : Bool) (evs : List (Nat × Event)) :
    Inv hasDb (runTimed hasDb evs).base :=
  timedFoldl_inv hasDb evs ⟨initState, 0⟩ (init_inv hasDb)

/-- Once the conversation has ended, no sequence of further timed
events changes the base state. -/
theorem timedFoldl_frozen (hasDb : Bool) (l : List (Nat × Event)) :
    ∀ (b : AuthState) (lt : Nat) (o : Outcome), b.stage = .ended o →
      (l.foldl (timedStep hasDb) ⟨b, lt⟩).base = b := by
  induction l with
  | nil => intro b lt o _; rfl
  | cons e t ih =>
    intro b lt o hb
    have hstep : timedStep hasDb ⟨b, lt⟩ e = ⟨b, e.1⟩ := by
      obtain ⟨stg, ci, ph, hh, cns, mem, db, dba, lg, si, ps⟩ := b
      simp only at hb
      subst hb
      simp only [timedStep]
      rw [step_ended hasDb _ e.2 o rfl]
    rw [List.foldl_cons, hstep]
    exact ih b e.1 o hb

/-! ### Claim theorems -/

/-- C1: for every execution of the authentication flow that reaches a
terminal state (SUCCESS, FAILED, or CANCELLED) — the FloodWait and
invalid-phone branches of the phone step included, since the event list
ranges over all of them — the per-conversation PendingLogin state
(`context.user_data`) holds no connection handle at all after the
terminal transition, hence no live one. -/
theorem auth_terminal_releases_pending_handle (hasDb : Bool)
    (evs : List Event) (o : Outcome)
    (h : (run hasDb evs).stage = .ended o) :
    (run hasDb evs).clientIdx = none :=
  (run_inv hasDb evs).2.2.2.1 o h

/-- Witness for C1: a flow that ends through the FloodWait branch. -/
theorem auth_terminal_releases_pending_handle_witness :
    (run true [.phone "+15550001234".toList (.floodWait 60)]).clientIdx
      = none :=
  auth_terminal_releases_pending_handle true
    [.phone "+15550001234".toList (.floodWait 60)] .failed (by decide)

/-- C3 counterexample, both directions of the claimed iff fail.
First: `save_session` runs before the log-channel `send_message`; when
the latter raises, the handler ends the flow as FAILED although the
durable write has already happened, refuting "no path ending in FAILED
or CANCELLED performs a session-store write". Second: when the Mongo
`update_one` raises, `save_session` swallows the exception (bot.py
lines 79-87) and the flow still ends SUCCESS with no durable write,
refuting "SUCCESS implies a write". -/
theorem save_then_log_failure_writes_on_failed :
    ((run true [.phone "+15550001234".toList .ok,
      .otp (.ok "SESSIONSTRING".toList true false)]).stage = .ended .failed
    ∧ (run true [.phone "+15550001234".toList .ok,
        .otp (.ok "SESSIONSTRING".toList true false)]).dbWrites
      = ["SESSIONSTRING".toList])
    ∧ (run true [.phone "+15550001234".toList .ok,
        .otp (.ok "SESSIONSTRING".toList false true)]).stage = .ended .success
    ∧ (run true [.phone "+15550001234".toList .ok,
        .otp (.ok "SESSIONSTRING".toList false true)]).dbWrites = []
    ∧ (run true [.phone "+15550001234".toList .ok,
        .otp (.ok "SESSIONSTRING".toList false true)]).dbAttempts
      = ["SESSIONSTRING".toList] := by
  exact ⟨⟨by decide, by decide⟩, by decide, by decide, by decide⟩

/-- C3 (amended): the session-store write is attempted exactly when
sign-in (OTP or 2FA check) succeeds: every SUCCESS path has invoked
`save_session` with the credential and no CANCELLED path has performed
(or attempted) a write; but the write is fallible — its exception is
swallowed inside `save_session` — so SUCCESS only guarantees the
attempt, not a durable write, and conversely a durable write implies
the sign-in succeeded yet the flow may still have ended FAILED when the
post-persistence log-channel send raised. -/
theorem credential_write_iff_sign_in (evs : List Event) :
    ((run true evs).stage = .ended .success → (run true evs).dbAttempts ≠ [])
    ∧ ((run true evs).stage = .ended .cancelled →
        (run true evs).dbAttempts = [] ∧ (run true evs).dbWrites = [])
    ∧ ((run true evs).dbWrites ≠ [] →
        (run true evs).signedIn = true
        ∧ ((run true evs).stage = .ended .success
           ∨ (run true evs).stage = .ended .failed))
    ∧ ((run true evs).dbAttempts = [] ↔ (run true evs).signedIn = false) := by
  obtain ⟨h1, h2, h3, h4, h5, h6, h7, h8, h9, h10, h11⟩ := run_inv true evs
  refine ⟨?_, ?_, ?_, h7 rfl⟩
  · intro hs
    obtain ⟨e, _, _, hdbm, _⟩ := h11 hs
    intro hnil
    rw [hnil] at hdbm
    exact List.not_mem_nil _ (hdbm rfl)
  · intro hs
    cases hsib : (run true evs).signedIn with
    | false => exact ⟨(h7 rfl).mpr hsib, h9 hsib⟩
    | true =>
      rcases h10 hsib with h | h <;> rw [hs] at h <;> simp at h
  · intro hne
    cases hsib : (run true evs).signedIn with
    | false => exact absurd (h9 hsib) hne
    | true => exact ⟨rfl, h10 hsib⟩

/-- Witness for C3 (amended): a successful OTP login has attempted the
store write. -/
theorem credential_write_on_success_trace :
    (run true [.phone "+15550001234".toList .ok,
      .otp (.ok "SESSIONSTRING2".toList true true)]).dbAttempts ≠ [] :=
  (credential_write_iff_sign_in [.phone "+15550001234".toList .ok,
    .otp (.ok "SESSIONSTRING2".toList true true)]).1 (by decide)

/-- C9: every flow reaching SUCCESS — via OTP alone or via 2FA — has
sent the exported session string, paired with the submitted phone
number, to the configured log channel; the very string held in the
in-process session map and handed to `save_session` thus flows outside
the authenticating user's own conversation on every successful login. -/
theorem success_logs_credential_to_channel (hasDb : Bool)
    (evs : List Event)
    (h : (run hasDb evs).stage = .ended .success) :
    ∃ e, e ∈ (run hasDb evs).logged
      ∧ e.1 ∈ (run hasDb evs).memSessions
      ∧ (hasDb = true → e.1 ∈ (run hasDb evs).dbAttempts)
      ∧ some e.2 = (run hasDb evs).phoneSubmitted :=
  (run_inv hasDb evs).2.2.2.2.2.2.2.2.2.2 h

/-- Witness for C9: the 2FA success path logs the credential. -/
theorem success_logs_credential_witness :
    ∃ e, e ∈ (run true [.phone "+15550001234".toList .ok, .otp .needs2fa,
        .tfa (.ok "SESSIONSTRING3".toList true true)]).logged
      ∧ e.1 ∈ (run true [.phone "+15550001234".toList .ok, .otp .needs2fa,
          .tfa (.ok "SESSIONSTRING3".toList true true)]).memSessions
      ∧ (true = true → e.1 ∈ (run true [.phone "+15550001234".toList .ok,
          .otp .needs2fa,
          .tfa (.ok "SESSIONSTRING3".toList true true)]).dbAttempts)
      ∧ some e.2 = (run true [.phone "+15550001234".toList .ok,
          .otp .needs2fa,
          .tfa (.ok "SESSIONSTRING3".toList true true)]).phoneSubmitted :=
  success_logs_credential_to_channel true
    [.phone "+15550001234".toList .ok, .otp .needs2fa,
      .tfa (.ok "SESSIONSTRING3".toList true true)] (by decide)

/-- C10: with no database client, `load_sessions` returns the empty
map and `save_session` / `delete_session` return without any effect;
the state machine nevertheless reaches SUCCESS with the credential held
only in the in-process map, so durable-write-iff-SUCCESS degrades
silently. -/
theorem no_db_silent_degradation (db : SessionDB) (uid : Nat)
    (sess : List Char) (evs : List Event) :
    load_sessions false db = []
    ∧ save_session false db uid sess = db
    ∧ delete_session false db uid = db
    ∧ (run false evs).dbWrites = []
    ∧ ((run false evs).stage = .ended .success →
        (run false evs).memSessions ≠ []) := by
  obtain ⟨h1, h2, h3, h4, h5, h6, h7, h8, h9, h10, h11⟩ := run_inv false evs
  refine ⟨rfl, rfl, rfl, (h8 rfl).1, ?_⟩
  intro hs
  obtain ⟨e, _, hmem, _, _⟩ := h11 hs
  intro hnil
  rw [hnil] at hmem
  exact List.not_mem_nil _ hmem

/-- Witness for C10: a successful login with no database still fills
the in-process map. -/
theorem no_db_silent_degradation_witness :
    (run false [.phone "+15550001234".toList .ok,
      .otp (.ok "SESSIONSTRING4".toList true true)]).memSessions ≠ [] :=
  (no_db_silent_degradation [] 0 []
    [.phone "+15550001234".toList .ok,
      .otp (.ok "SESSIONSTRING4".toList true true)]).2.2.2.2 (by decide)

/-- C2: the strategy chain runs in the fixed order copy, forward,
download and stops at the first success: when copy succeeds nothing
else is invoked, forward is invoked only after copy failed, download
only after both failed, and the invocation list is always an initial
run of that order. -/
theorem pipeline_first_success_stops (msg : FetchedMessage)
    (env : StratEnv) :
    (stratOk env.copyRes = true → (runStrategies msg env).invoked = [.copy])
    ∧ (.forward ∈ (runStrategies msg env).invoked →
        stratOk env.copyRes = false)
    ∧ (.download ∈ (runStrategies msg env).invoked →
        stratOk env.copyRes = false ∧ stratOk env.forwardRes = false)
    ∧ ((runStrategies msg env).invoked = [.copy]
       ∨ (runStrategies msg env).invoked = [.copy, .forward]
       ∨ (runStrategies msg env).invoked = [.copy, .forward, .download]) := by
  obtain ⟨hm, sz⟩ := msg
  obtain ⟨cr, fr, dr⟩ := env
  simp only [runStrategies]
  cases hc : stratOk cr <;> cases hf : stratOk fr <;> cases hm <;> simp

/-- Witness for C2: when copy succeeds, only copy is invoked. -/
theorem pipeline_copy_success_witness :
    (runStrategies ⟨true, 0⟩ ⟨.ok, .ok, .ok⟩).invoked = [.copy] :=
  (pipeline_first_success_stops ⟨true, 0⟩ ⟨.ok, .ok, .ok⟩).1 rfl

/-- C5 counterexample: for an oversized media message and a
non-entitled user the spec's policy gate denies, yet the code invokes
the copy strategy — there is no size gate and no SizeLimitExceeded
abort before the transfer strategies. -/
theorem oversize_not_denied_copy_attempted :
    specPolicyGate false 2000000001 2000000000 = false
    ∧ (runStrategies ⟨true, 2000000001⟩ ⟨.ok, .ok, .ok⟩).invoked
      = [.copy] := by
  exact ⟨by decide, rfl⟩

/-- C5 (amended): the pipeline performs no size-based policy gating at
all: for every fetched message — any declared size, entitled or not —
the first transfer strategy is attempted, and no SizeLimitExceeded
denial exists on this path. -/
theorem no_size_gate_copy_always_first (msg : FetchedMessage)
    (env : StratEnv) :
    ((runStrategies msg env).invoked.head? = some .copy) := by
  obtain ⟨hm, sz⟩ := msg
  obtain ⟨cr, fr, dr⟩ := env
  simp only [runStrategies]
  cases stratOk cr <;> cases stratOk fr <;> cases hm <;> simp

/-- C6 counterexample: a copy failure classified as a permission error
(and likewise not-found) still escalates to the next strategy, refuting
"permission or not-found errors terminate without attempting any later
strategy". -/
theorem permission_error_still_escalates :
    (runStrategies ⟨false, 0⟩
      ⟨.err .accessDenied, .ok, .ok⟩).invoked = [.copy, .forward]
    ∧ (runStrategies ⟨true, 0⟩
        ⟨.err .notFound, .err .notFound, .ok⟩).invoked
      = [.copy, .forward, .download] := by
  exact ⟨rfl, rfl⟩

/-- C6 (amended): the code's bare `except Exception` makes every
failure escalate: any copy failure, of any classification, leads to
forward being invoked, and any forward failure on a media message leads
to download being invoked — the classification never ends the chain. -/
theorem escalation_ignores_classification (msg : FetchedMessage)
    (env : StratEnv) (c c' : ErrClass) :
    (env.copyRes = .err c → .forward ∈ (runStrategies msg env).invoked)
    ∧ (env.copyRes = .err c → env.forwardRes = .err c' →
        msg.hasMedia = true →
        .download ∈ (runStrategies msg env).invoked) := by
  obtain ⟨hm, sz⟩ := msg
  obtain ⟨cr, fr, dr⟩ := env
  refine ⟨?_, ?_⟩
  · intro hcr
    simp only at hcr
    subst hcr
    cases fr <;> cases hm <;> simp [runStrategies, stratOk]
  · intro hcr hfr hm'
    simp only at hcr hfr hm'
    subst hcr; subst hfr; subst hm'
    simp [runStrategies, stratOk]

/-- Witness for C6 (amended): an access-denied copy failure escalates
to forward. -/
theorem escalation_on_access_denied_witness :
    .forward ∈ (runStrategies ⟨true, 5⟩
      ⟨.err .accessDenied, .err .notFound, .ok⟩).invoked :=
  (escalation_ignores_classification ⟨true, 5⟩
    ⟨.err .accessDenied, .err .notFound, .ok⟩ .accessDenied .notFound).1 rfl

/-- C8 (spec-modelled timeout wiring): a pending login untouched for
300 seconds or more is, on the next interaction, cancelled rather than
resumed — the stale event is discarded, the PendingLogin cleared, and
its held connection released exactly once; no connection ever receives
two disconnect calls, and once ended the conversation never changes
again under further (stale) events. -/
theorem idle_timeout_cancellation (hasDb : Bool)
    (evs : List (Nat × Event)) (t : Nat) (ev : Event) :
    (isEnded (runTimed hasDb evs).base.stage = false →
      (runTimed hasDb evs).lastTouch + timeoutSecs ≤ t →
        (runTimed hasDb (evs ++ [(t, ev)])).base.stage = .ended .cancelled
        ∧ (runTimed hasDb (evs ++ [(t, ev)])).base.clientIdx = none
        ∧ (∀ i, (runTimed hasDb evs).base.clientIdx = some i →
            ∃ c, (runTimed hasDb (evs ++ [(t, ev)])).base.conns.get? i
                = some c
              ∧ c.connected = false ∧ c.disconnects = 1))
    ∧ (∀ c ∈ (runTimed hasDb evs).base.conns, c.disconnects ≤ 1)
    ∧ (∀ more o, (runTimed hasDb evs).base.stage = .ended o →
        (runTimed hasDb (evs ++ more)).base = (runTimed hasDb evs).base) := by
  obtain ⟨h1, h2, h3, h4, h5, h6, h7, h8, h9, h10, h11⟩ := runTimed_inv hasDb evs
  refine ⟨?_, h2, ?_⟩
  · intro hne hexp
    have happ : runTimed hasDb (evs ++ [(t, ev)])
        = timedStep hasDb (runTimed hasDb evs) (t, ev) := by
      simp [runTimed, List.foldl_append]
    have hred : timedStep hasDb (runTimed hasDb evs) (t, ev)
        = ⟨{ cleanupClient (runTimed hasDb evs).base
              with stage := .ended .cancelled }, t⟩ := by
      cases hstg : (runTimed hasDb evs).base.stage with
      | ended o => rw [hstg] at hne; simp [isEnded] at hne
      | getPhone =>
        simp only [timedStep, hstg]
        rw [if_pos hexp]
      | getOtp =>
        simp only [timedStep, hstg]
        rw [if_pos hexp]
      | get2fa =>
        simp only [timedStep, hstg]
        rw [if_pos hexp]
    rw [happ, hred]
    cases hci : (runTimed hasDb evs).base.clientIdx with
    | none =>
      refine ⟨rfl, ?_, ?_⟩
      · simp [cleanupClient, hci]
      · intro i hi
        exact Option.noConfusion hi
    | some i =>
      obtain ⟨c, hc, hconn, hd0⟩ := h1 i hci
      have hcond :
          (((runTimed hasDb evs).base.conns.get? i).map
            Conn.connected).getD false = true := by
        rw [hc]; simpa using hconn
      refine ⟨rfl, ?_, ?_⟩
      · simp [cleanupClient, hci, hcond]
      · intro j hj
        injection hj with hj
        subst hj
        refine ⟨callDisconnect c, ?_, rfl, by simp [callDisconnect, hd0]⟩
        simp only [cleanupClient, hci, hcond, if_true]
        rw [modifyAt_get?_self, hc]
        rfl
  · intro more o hend
    have : runTimed hasDb (evs ++ more)
        = more.foldl (timedStep hasDb) (runTimed hasDb evs) := by
      simp [runTimed, List.foldl_append]
    rw [this]
    have hst : (runTimed hasDb evs)
        = ⟨(runTimed hasDb evs).base, (runTimed hasDb evs).lastTouch⟩ := rfl
    rw [hst]
    exact timedFoldl_frozen hasDb more _ _ o hend

/-! ### Lemmas about the string primitives -/

theorem digitsGo_le (l : List Char) : ∀ acc : Nat, acc ≤ digitsGo acc l := by
  induction l with
  | nil => intro acc; exact Nat.le_refl acc
  | cons c t ih =>
    intro acc
    calc acc ≤ 10 * acc + (c.toNat - 48) := by omega
    _ ≤ digitsGo (10 * acc + (c.toNat - 48)) t := ih _

theorem digitsVal_100_ge (l : List Char) :
    100 ≤ digitsVal ('1' :: '0' :: '0' :: l) :=
  digitsGo_le l 100

theorem allDigits_mem {l : List Char} {c : Char}
    (h : allDigits l = true) (hc : c ∈ l) : c.isDigit = true := by
  rw [allDigits, List.all_eq_true] at h
  exact h c hc

theorem not_mem_of_allDigits {l : List Char} {c : Char}
    (h : allDigits l = true) (hc : c.isDigit = false) : c ∉ l := by
  intro hmem
  rw [allDigits_mem h hmem] at hc
  exact Bool.noConfusion hc

theorem digit_bounds {c : Char} (h : c.isDigit = true) :
    48 ≤ c.toNat ∧ c.toNat ≤ 57 := by
  simp [Char.isDigit] at h
  exact h

theorem decDigitVal?_digit {c : Char} (h : c.isDigit = true) :
    decDigitVal? c = some (c.toNat - 48) := by
  obtain ⟨h1, h2⟩ := digit_bounds h
  have hcond : (decide (48 ≤ c.toNat) && decide (c.toNat < 48 + 10)) = true := by
    simp
    omega
  simp only [decDigitVal?, ndZeros, List.findSome?]
  rw [if_pos]
  simp
  omega

theorem isPySpace_digit {c : Char} (h : c.isDigit = true) :
    isPySpace c = false := by
  obtain ⟨h1, h2⟩ := digit_bounds h
  simp [isPySpace, pySpaceCodes]
  omega

theorem digit_ne_underscore {c : Char} (h : c.isDigit = true) : c ≠ '_' := by
  intro he
  rw [he] at h
  exact Bool.noConfusion h

theorem digit_ne_plus {c : Char} (h : c.isDigit = true) : c ≠ '+' := by
  intro he
  rw [he] at h
  exact Bool.noConfusion h

theorem digit_ne_minus {c : Char} (h : c.isDigit = true) : c ≠ '-' := by
  intro he
  rw [he] at h
  exact Bool.noConfusion h

theorem dropWhile_eq_self_of_all {p : Char → Bool} {l : List Char}
    (h : ∀ c ∈ l, p c = false) : l.dropWhile p = l := by
  cases l with
  | nil => rfl
  | cons c t =>
    rw [List.dropWhile_cons, if_neg]
    rw [h c (List.mem_cons_self c t)]
    simp

theorem stripPySpace_eq_self {l : List Char}
    (h : ∀ c ∈ l, isPySpace c = false) : stripPySpace l = l := by
  rw [stripPySpace, dropWhile_eq_self_of_all h, dropWhile_eq_self_of_all,
    List.reverse_reverse]
  intro c hc
  exact h c (List.mem_reverse.mp hc)

theorem dropWhile_append_single {p : Char → Bool} {x : Char}
    (l : List Char) (hx : p x = false) :
    (l ++ [x]).dropWhile p = l.dropWhile p ++ [x] := by
  induction l with
  | nil => simp [List.dropWhile_cons, hx]
  | cons c t ih =>
    rw [List.cons_append, List.dropWhile_cons, List.dropWhile_cons]
    cases hc : p c with
    | true => simpa [hc] using ih
    | false => simp [hc]

theorem rstrip_cons {x : Char} (hx : isPySpace x = false) (l : List Char) :
    ((x :: l).reverse.dropWhile isPySpace).reverse
      = x :: (l.reverse.dropWhile isPySpace).reverse := by
  rw [List.reverse_cons, dropWhile_append_single _ hx, List.reverse_append]
  simp

theorem digitsGo_cons (acc : Nat) (c : Char) (t : List Char) :
    digitsGo acc (c :: t) = digitsGo (10 * acc + (c.toNat - 48)) t := rfl

theorem pyBodyGo_digits (l : List Char) : ∀ acc : Nat,
    allDigits l = true → pyBodyGo acc l = some (digitsGo acc l) := by
  induction l with
  | nil => intro acc _; rfl
  | cons c t ih =>
    intro acc hall
    have hc : c.isDigit = true := by
      rw [allDigits, List.all_eq_true] at hall
      exact hall c (List.mem_cons_self c t)
    have ht : allDigits t = true := by
      rw [allDigits, List.all_eq_true] at hall ⊢
      exact fun d hd => hall d (List.mem_cons_of_mem c hd)
    rw [pyBodyGo.eq_def]
    simp only [if_neg (digit_ne_underscore hc), decDigitVal?_digit hc]
    rw [ih _ ht]
    rfl

theorem pyBodyGo_le_aux : ∀ (k : Nat) (l : List Char), l.length ≤ k →
    ∀ acc n : Nat, pyBodyGo acc l = some n → acc ≤ n := by
  intro k
  induction k with
  | zero =>
    intro l hl acc n h
    have : l = [] := List.length_eq_zero.mp (Nat.le_zero.mp hl)
    subst this
    injection h with h
    omega
  | succ k ih =>
    intro l hl acc n h
    cases l with
    | nil => injection h with h; omega
    | cons c rest =>
      rw [pyBodyGo.eq_def] at h
      by_cases hc : c = '_'
      · simp only [if_pos hc] at h
        cases rest with
        | nil => exact Option.noConfusion h
        | cons d rest2 =>
          cases hd : decDigitVal? d with
          | none => simp only [hd] at h; exact Option.noConfusion h
          | some dv =>
            simp only [hd] at h
            have hlen : rest2.length ≤ k := by
              simp at hl
              omega
            have := ih rest2 hlen _ n h
            omega
      · simp only [if_neg hc] at h
        cases hd : decDigitVal? c with
        | none => simp only [hd] at h; exact Option.noConfusion h
        | some dv =>
          simp only [hd] at h
          have hlen : rest.length ≤ k := by
            simp at hl
            omega
          have := ih rest hlen _ n h
          omega

theorem pyBodyGo_le {l : List Char} {acc n : Nat}
    (h : pyBodyGo acc l = some n) : acc ≤ n :=
  pyBodyGo_le_aux l.length l (Nat.le_refl _) acc n h

theorem pyInt_digits {l : List Char} (h1 : l ≠ [])
    (h2 : allDigits l = true) : pyInt l = some (digitsVal l : Int) := by
  have hns : ∀ c ∈ l, isPySpace c = false := by
    intro c hc
    rw [allDigits, List.all_eq_true] at h2
    exact isPySpace_digit (h2 c hc)
  cases l with
  | nil => exact absurd rfl h1
  | cons c cs =>
    have hc : c.isDigit = true := by
      rw [allDigits, List.all_eq_true] at h2
      exact h2 c (List.mem_cons_self c cs)
    have hcs : allDigits cs = true := by
      rw [allDigits, List.all_eq_true] at h2 ⊢
      exact fun d hd => h2 d (List.mem_cons_of_mem c hd)
    rw [pyInt, stripPySpace_eq_self hns]
    simp only [if_neg (digit_ne_plus hc), if_neg (digit_ne_minus hc),
      pyBody, decDigitVal?_digit hc, pyBodyGo_digits cs _ hcs]
    rw [digitsVal, digitsGo_cons]
    norm_num

theorem pyInt_minus100 {l : List Char} (h2 : allDigits l = true) :
    pyInt (minus100 ++ l)
      = some (-(digitsVal ('1' :: '0' :: '0' :: l) : Int)) := by
  have hns : ∀ c ∈ ('-' :: '1' :: '0' :: '0' :: l), isPySpace c = false := by
    intro c hc
    rcases List.mem_cons.mp hc with h | hc
    · subst h; decide
    · rcases List.mem_cons.mp hc with h | hc
      · subst h; decide
      · rcases List.mem_cons.mp hc with h | hc
        · subst h; decide
        · rcases List.mem_cons.mp hc with h | hc
          · subst h; decide
          · rw [allDigits, List.all_eq_true] at h2
            exact isPySpace_digit (h2 c hc)
  show pyInt ('-' :: '1' :: '0' :: '0' :: l) = _
  rw [pyInt, stripPySpace_eq_self hns]
  simp only [if_neg (show ('-' : Char) ≠ '+' by decide), if_pos rfl]
  have hall : allDigits ('0' :: '0' :: l) = true := by
    rw [allDigits, List.all_eq_true] at h2 ⊢
    intro d hd
    rcases List.mem_cons.mp hd with h | hd
    · subst h; decide
    · rcases List.mem_cons.mp hd with h | hd
      · subst h; decide
      · exact h2 d hd
  simp only [pyBody, show decDigitVal? '1' = some 1 from rfl,
    pyBodyGo_digits _ _ hall]
  rw [digitsVal, digitsGo_cons, digitsGo_cons, digitsGo_cons]
  norm_num [show '0'.toNat = 48 from rfl, show '1'.toNat = 49 from rfl]
  rw [digitsGo_cons, digitsGo_cons]
  norm_num [show '0'.toNat = 48 from rfl]

theorem pySplit_no_sep {sep : Char} {l : List Char} (h : sep ∉ l) :
    pySplit sep l = [l] := by
  induction l with
  | nil => rfl
  | cons c t ih =>
    have hc : c ≠ sep := fun hcc => h (hcc ▸ List.mem_cons_self c t)
    have ht : sep ∉ t := fun htt => h (List.mem_cons_of_mem c htt)
    rw [pySplit, if_neg hc, ih ht]

theorem pySplit_cons_sep (sep : Char) (l : List Char) :
    pySplit sep (sep :: l) = [] :: pySplit sep l := by
  rw [pySplit, if_pos rfl]

theorem pySplit_append_sep {sep : Char} {xs : List Char} (ys : List Char)
    (h : sep ∉ xs) : pySplit sep (xs ++ sep :: ys) = xs :: pySplit sep ys := by
  induction xs with
  | nil => simpa using pySplit_cons_sep sep ys
  | cons c t ih =>
    have hc : c ≠ sep := fun hcc => h (hcc ▸ List.mem_cons_self c t)
    have ht : sep ∉ t := fun htt => h (List.mem_cons_of_mem c htt)
    rw [List.cons_append, pySplit, if_neg hc, ih ht]

theorem containsSub_cons_of {pat l : List Char} (c : Char)
    (h : containsSub pat l = true) : containsSub pat (c :: l) = true := by
  rw [containsSub, h, Bool.or_true]

theorem containsSub_of_isPrefixOf {pat l : List Char}
    (h : pat.isPrefixOf l = true) : containsSub pat l = true := by
  cases l with
  | nil =>
    have : pat = [] := by
      cases pat with
      | nil => rfl
      | cons p ps => exact Bool.noConfusion h
    simp [containsSub, this]
  | cons c t => rw [containsSub, h, Bool.true_or]

theorem containsSub_append_of_left {pat xs : List Char} (ys : List Char)
    (h : containsSub pat xs = true) :
    containsSub pat (xs ++ ys) = true := by
  induction xs with
  | nil =>
    have hpat : pat = [] := by
      cases pat with
      | nil => rfl
      | cons p ps => exact Bool.noConfusion h
    subst hpat
    apply containsSub_of_isPrefixOf
    rw [List.isPrefixOf_iff_prefix]
    exact List.nil_prefix
  | cons c t ih =>
    rw [containsSub, Bool.or_eq_true] at h
    rcases h with h | h
    · apply containsSub_of_isPrefixOf
      rw [List.isPrefixOf_iff_prefix] at h ⊢
      rw [List.cons_append]
      exact h.trans (List.prefix_append (c :: t) ys)
    · rw [List.cons_append]
      exact containsSub_cons_of c (ih h)

theorem containsSub_append_of_right {pat : List Char} (xs : List Char)
    {ys : List Char} (h : containsSub pat ys = true) :
    containsSub pat (xs ++ ys) = true := by
  induction xs with
  | nil => simpa using h
  | cons c t ih => rw [List.cons_append]; exact containsSub_cons_of c ih

/-- Witness for C8: a login left idle past the timeout is cancelled on
the next (stale) interaction. -/
theorem idle_timeout_cancellation_witness :
    (runTimed true ([(0, .phone "+15550001234".toList .ok)]
      ++ [(400, .otp (.ok "S".toList true true))])).base.stage
      = .ended .cancelled :=
  ((idle_timeout_cancellation true [(0, .phone "+15550001234".toList .ok)]
    400 (.otp (.ok "S".toList true true))).1 (by decide) (by decide)).1

/-- C7: for every private-numeric reference
`https://t.me/c/<digits>/<digits>` whose message-id value is positive,
the parser yields the chat id obtained by prefixing the channel digits
with the platform's -100 offset, and the message id parsed from the
final segment. -/
theorem private_link_offset_parse (nid mid : List Char)
    (h2 : allDigits nid = true)
    (h3 : mid ≠ []) (h4 : allDigits mid = true)
    (h5 : 0 < digitsVal mid) :
    linkParse ("https://t.me/c/".toList ++ nid ++ '/' :: mid)
      = .ok ⟨.cid (-(digitsVal ('1' :: '0' :: '0' :: nid) : Int)),
             (digitsVal mid : Int)⟩ := by
  have hslashn : '/' ∉ nid := not_mem_of_allDigits h2 (by decide)
  have hslashm : '/' ∉ mid := not_mem_of_allDigits h4 (by decide)
  have hqn : '?' ∉ nid := not_mem_of_allDigits h2 (by decide)
  have hqm : '?' ∉ mid := not_mem_of_allDigits h4 (by decide)
  have hshape : "https://t.me/c/".toList ++ nid ++ '/' :: mid
      = "https:".toList ++ '/' :: '/'
        :: ("t.me".toList ++ '/' :: ('c' :: '/' :: (nid ++ '/' :: mid))) := rfl
  rw [hshape]
  have hmark : containsSub tMeChars
      ("https:".toList ++ '/' :: '/'
        :: ("t.me".toList ++ '/' :: ('c' :: '/' :: (nid ++ '/' :: mid))))
      = true := by
    apply containsSub_append_of_right
    apply containsSub_cons_of
    apply containsSub_cons_of
    apply containsSub_append_of_left
    decide
  have hq : '?' ∉ ("https:".toList ++ '/' :: '/'
      :: ("t.me".toList ++ '/' :: ('c' :: '/' :: (nid ++ '/' :: mid)))) := by
    intro hmem
    simp [hqn, hqm] at hmem
  have hparts : pySplit '/' ("https:".toList ++ '/' :: '/'
      :: ("t.me".toList ++ '/' :: ('c' :: '/' :: (nid ++ '/' :: mid))))
      = ["https:".toList, [], "t.me".toList, ['c'], nid, mid] := by
    rw [pySplit_append_sep _ (by decide)]
    rw [pySplit_cons_sep]
    rw [pySplit_append_sep _ (by decide)]
    rw [show ('c' : Char) :: '/' :: (nid ++ '/' :: mid)
        = ['c'] ++ '/' :: (nid ++ '/' :: mid) from rfl]
    rw [pySplit_append_sep _ (by decide)]
    rw [pySplit_append_sep _ hslashn]
    rw [pySplit_no_sep hslashm]
  have hpriv : containsSub privMark
      ("https:".toList ++ '/' :: '/'
        :: ("t.me".toList ++ '/' :: ('c' :: '/' :: (nid ++ '/' :: mid))))
      = true := by
    apply containsSub_append_of_right
    apply containsSub_cons_of
    apply containsSub_cons_of
    apply containsSub_append_of_right
    apply containsSub_of_isPrefixOf
    simp [privMark, List.isPrefixOf]
  have hclean : (pySplit '?' ("https:".toList ++ '/' :: '/'
      :: ("t.me".toList ++ '/' :: ('c' :: '/' :: (nid ++ '/' :: mid))))).headD []
      = "https:".toList ++ '/' :: '/'
        :: ("t.me".toList ++ '/' :: ('c' :: '/' :: (nid ++ '/' :: mid))) := by
    rw [pySplit_no_sep hq]
    rfl
  rw [linkParse]
  rw [hmark]
  simp only [Bool.not_true, Bool.false_eq_true, if_false, hclean, hparts, hpriv, if_true]
  show parsePriv ["https:".toList, [], "t.me".toList, ['c'], nid, mid] = _
  have hidx : pyIndex ['c'] ["https:".toList, [], "t.me".toList, ['c'], nid, mid]
      = some 3 := by
    rw [pyIndex, if_neg (by decide)]
    rw [pyIndex, if_neg (by decide)]
    rw [pyIndex, if_neg (by decide)]
    rw [pyIndex, if_pos rfl]
    rfl
  rw [parsePriv, hidx]
  have hv : (-(digitsVal ('1' :: '0' :: '0' :: nid) : Int)) ≠ 0 := by
    have h100 := digitsVal_100_ge nid
    omega
  have hm0 : (digitsVal mid : Int) ≠ 0 := by
    exact_mod_cast h5.ne'
  simp [pyInt_digits h3 h4, pyInt_minus100 h2, finishParse, chatTruthy, hv, hm0]

/-- Witness for C7: `https://t.me/c/1234567890/55` yields chat
-1001234567890 and message id 55. -/
theorem private_link_offset_parse_witness :
    linkParse ("https://t.me/c/".toList ++ "1234567890".toList
      ++ '/' :: "55".toList)
      = .ok ⟨.cid (-1001234567890), 55⟩ :=
  (private_link_offset_parse "1234567890".toList "55".toList
    (by decide) (by decide) (by decide) (by decide)).trans (by decide)

theorem pyInt_minus100_ne_zero {l : List Char} {v : Int}
    (h : pyInt (minus100 ++ l) = some v) : v ≠ 0 := by
  have h' : pyInt ('-' :: '1' :: '0' :: '0' :: l) = some v := h
  rw [pyInt] at h'
  have hs : stripPySpace ('-' :: '1' :: '0' :: '0' :: l)
      = '-' :: '1' :: '0' :: '0' :: (l.reverse.dropWhile isPySpace).reverse := by
    rw [stripPySpace, List.dropWhile_cons, if_neg (by decide)]
    rw [rstrip_cons (by decide), rstrip_cons (by decide),
      rstrip_cons (by decide), rstrip_cons (by decide)]
  rw [hs] at h'
  simp only [if_neg (show ('-' : Char) ≠ '+' by decide), if_pos rfl,
    pyBody, show decDigitVal? '1' = some 1 from rfl] at h'
  rw [pyBodyGo.eq_def] at h'
  simp only [if_neg (show ('0' : Char) ≠ '_' by decide),
    show decDigitVal? '0' = some 0 from rfl] at h'
  rw [pyBodyGo.eq_def] at h'
  simp only [if_neg (show ('0' : Char) ≠ '_' by decide),
    show decDigitVal? '0' = some 0 from rfl] at h'
  cases hb : pyBodyGo (10 * (10 * 1 + 0) + 0)
      ((l.reverse.dropWhile isPySpace).reverse) with
  | none => rw [hb] at h'; exact Option.noConfusion h'
  | some n =>
    rw [hb] at h'
    simp at h'
    have hn := pyBodyGo_le hb
    omega

theorem isErrB_parsePriv (parts : List (List Char)) :
    isErrB (parsePriv parts) = privFailCond parts := by
  cases hix : pyIndex ['c'] parts with
  | none => simp [parsePriv, privFailCond, hix, isErrB]
  | some ci =>
    cases hg2 : parts[ci + 2]? with
    | none =>
      have hlen : parts.length ≤ ci + 2 := List.getElem?_eq_none_iff.mp hg2
      cases hg1 : parts[ci + 1]? <;>
        simp [parsePriv, privFailCond, hix, hg1, hg2, isErrB, hlen, segAt]
    | some msgSeg =>
      have hlt : ci + 2 < parts.length := by
        rcases List.getElem?_eq_some_iff.mp hg2 with ⟨hh, _⟩
        exact hh
      have hlt1 : ci + 1 < parts.length := by omega
      obtain ⟨chSeg, hg1⟩ : ∃ chSeg, parts[ci + 1]? = some chSeg :=
        ⟨parts[ci + 1], List.getElem?_eq_getElem hlt1⟩
      cases hpm : pyInt msgSeg with
      | none =>
        simp [parsePriv, privFailCond, hix, hg1, hg2, hpm, isErrB, segAt,
          Nat.not_le.mpr hlt]
      | some m =>
        cases hpc : pyInt (minus100 ++ chSeg) with
        | none =>
          simp [parsePriv, privFailCond, hix, hg1, hg2, hpm, hpc, isErrB,
            segAt, Nat.not_le.mpr hlt]
        | some v =>
          have hvne : v ≠ 0 := pyInt_minus100_ne_zero hpc
          by_cases hm : m = 0 <;>
            simp [parsePriv, privFailCond, finishParse, chatTruthy, hix,
              hg1, hg2, hpm, hpc, segAt, hvne, Nat.not_le.mpr hlt, isErrB, hm]

theorem isErrB_parseStory (parts : List (List Char)) :
    isErrB (parseStory parts) = storyFailCond parts := by
  cases hix : pyIndex ['s'] parts with
  | none => simp [parseStory, storyFailCond, hix, isErrB]
  | some si =>
    cases hg2 : parts[si + 2]? with
    | none =>
      have hlen : parts.length ≤ si + 2 := List.getElem?_eq_none_iff.mp hg2
      cases hg1 : parts[si + 1]? <;>
        simp [parseStory, storyFailCond, hix, hg1, hg2, isErrB, hlen, segAt]
    | some msgSeg =>
      have hlt : si + 2 < parts.length := by
        rcases List.getElem?_eq_some_iff.mp hg2 with ⟨hh, _⟩
        exact hh
      have hlt1 : si + 1 < parts.length := by omega
      obtain ⟨uSeg, hg1⟩ : ∃ uSeg, parts[si + 1]? = some uSeg :=
        ⟨parts[si + 1], List.getElem?_eq_getElem hlt1⟩
      cases hpm : pyInt msgSeg with
      | none =>
        simp [parseStory, storyFailCond, hix, hg1, hg2, hpm, isErrB, segAt,
          Nat.not_le.mpr hlt]
      | some m =>
        by_cases hm : m = 0 <;>
          simp [parseStory, storyFailCond, finishParse, chatTruthy, hix,
            hg1, hg2, hpm, segAt, Nat.not_le.mpr hlt, isErrB, hm]

theorem isErrB_parsePublic (parts : List (List Char)) :
    isErrB (parsePublic parts) = publicFailCond parts := by
  simp only [parsePublic, publicFailCond]
  set relevant := parts.filter
    (fun p => !p.isEmpty && p ≠ httpsTok && p ≠ tMeChars) with hrel
  cases hg1 : relevant[1]? with
  | none =>
    have hlen : relevant.length ≤ 1 := List.getElem?_eq_none_iff.mp hg1
    cases hg0 : relevant[0]? <;>
      simp [hg0, hg1, isErrB, hlen, segAt]
  | some msgSeg =>
    have hlt : 1 < relevant.length := by
      rcases List.getElem?_eq_some_iff.mp hg1 with ⟨hh, _⟩
      exact hh
    have hlt0 : 0 < relevant.length := by omega
    obtain ⟨uSeg, hg0⟩ : ∃ uSeg, relevant[0]? = some uSeg :=
      ⟨relevant[0], List.getElem?_eq_getElem hlt0⟩
    cases hpm : pyInt msgSeg with
    | none =>
      simp [hg0, hg1, hpm, isErrB, segAt, Nat.not_le.mpr hlt]
    | some m =>
      by_cases hm : m = 0 <;>
        simp [finishParse, chatTruthy, hg0, hg1, hpm, segAt,
          Nat.not_le.mpr hlt, isErrB, hm]

/-- C4 counterexample: the public link for channel `chan` whose final
path segment is `-5` has a message-id segment that is not a positive
integer, yet the parser produces a ContentReference (with message id
-5): Python's `int` accepts a sign, and the final guard only rejects
zero. -/
theorem negative_message_id_accepted :
    linkParse "https://t.me/chan/-5".toList
      = .ok ⟨.handle "@chan".toList, -5⟩
    ∧ ¬(0 < (-5 : Int)) := by
  exact ⟨by decide, by decide⟩

/-- C4 (amended): the parser fails exactly when the `'t.me'` marker is
absent, the selected branch has too few path segments, the message-id
segment is not an integer in CPython's `int()` syntax (optional
whitespace padding, optional sign, decimal digits with single
underscores between them) or is zero, or (private branch) the channel
segment does not form such an integer when prefixed with -100 —
negative message ids are accepted. -/
theorem link_parse_error_characterization (text : List Char) :
    isErrB (linkParse text) = failCond text := by
  rw [linkParse, failCond]
  cases hmark : containsSub tMeChars text with
  | false => simp [isErrB]
  | true =>
    simp only [Bool.not_true, Bool.false_eq_true, if_false, Bool.false_or]
    cases hc : containsSub privMark ((pySplit '?' text).headD []) with
    | true => simp [hc, isErrB_parsePriv]
    | false =>
      cases hs : containsSub storyMark ((pySplit '?' text).headD []) with
      | true => simp [hc, hs, isErrB_parseStory]
      | false => simp [hc, hs, isErrB_parsePublic]

end Restricted
